import Mathlib

/-!
# Verification of the miden-node store against its specification

This development gives a shallow embedding of the store component of the
miden-node repository (`store/src/db/sql.rs`, `store/src/genesis.rs`,
`block-producer/src/store/mod.rs`) and proves properties that the
specification states about it.

Modelling conventions:
* SQL tables become Lean lists of row structures; an SQL `INSERT` is a list
  append, `INSERT OR REPLACE` on a primary-keyed table removes the old row
  with the key and appends the new one, a `WHERE` clause is a `List.filter`,
  `ORDER BY k ASC` is an insertion sort on the key, `ORDER BY k DESC LIMIT 1`
  selects a row with the maximal key, and `WHERE k = x ... LIMIT 1` is
  `List.find?`.
* Machine integers (`u64`, `u32`, field elements) are `Nat` with explicit
  bounds or `% 2 ^ w` where the code truncates.
* The cryptographic account type of `miden_objects` is opaque to this
  repository; its hash function and delta application are therefore
  parameters (`hashAcc`, `applyDeltaFn`) of every definition that uses them,
  and digests are opaque values (`Nat`).
* Fallible Rust functions returning `Result` become `Except`; the enclosing
  SQL transaction means an `Except.error` leaves the store unchanged.
-/

namespace MidenStore

/-- A 256-bit digest (`RpoDigest`), opaque to this repository. -/
abbrev Digest := Nat

/-- The opaque account state from `miden_objects::accounts::Account`.
`id` is the account id returned by `Account::id`; `state` stands for the
rest of the account's state (vault, storage, code, nonce). -/
structure Account where
  id : Nat
  state : Nat
deriving DecidableEq, Repr

/-- The opaque payload of `miden_objects::accounts::AccountDelta`. -/
abbrev AccountDelta := Nat

/-- Model of `miden_objects::transaction::AccountDetails`: a full account snapshot or
an incremental delta. -/
inductive AccountDetails where
  | full (account : Account)
  | delta (d : AccountDelta)
deriving DecidableEq, Repr

/-- Model of `miden_node_proto::domain::accounts::AccountUpdateDetails` as consumed by
`upsert_accounts`: an account id, the declared final state hash, and an
optional full/delta payload. -/
structure AccountUpdateDetails where
  account_id : Nat
  final_state_hash : Digest
  details : Option AccountDetails
deriving DecidableEq, Repr

/-- A row of the `accounts` table:
`accounts(account_id PK, account_hash, block_num, details NULL)`. -/
structure AccountRow where
  account_id : Nat
  account_hash : Digest
  block_num : Nat
  details : Option Account
deriving DecidableEq, Repr

/-- Model of `AccountSummary` as selected by `select_accounts_by_block_range`. -/
structure AccountSummary where
  account_id : Nat
  account_hash : Digest
  block_num : Nat
deriving DecidableEq, Repr

/-- A nullifier digest. `msf` is the value of `most_significant_felt().as_int()`
(a `u64`); `rest` stands for the remaining three field elements. -/
structure Nullifier where
  msf : Nat
  rest : Nat
deriving DecidableEq, Repr

/-- A row of the `nullifiers` table:
`nullifiers(nullifier, nullifier_prefix, block_num)`. -/
structure NullifierRow where
  nullifier : Nullifier
  nullifierPfx : Nat
  block_num : Nat
deriving DecidableEq, Repr

/-- Model of `NullifierInfo` as selected by `select_nullifiers_by_block_range`. -/
structure NullifierInfo where
  nullifier : Nullifier
  block_num : Nat
deriving DecidableEq, Repr

/-- The per-note payload (`NoteCreated`) of a row of the `notes` table. -/
structure NoteCreated where
  batch_index : Nat
  note_index : Nat
  note_id : Digest
  note_type : Nat
  sender : Nat
  tag : Nat
  details : Option Nat
deriving DecidableEq, Repr

/-- A row of the `notes` table (the store's `Note` record). -/
structure Note where
  block_num : Nat
  note_created : NoteCreated
  merkle_path : Nat
deriving DecidableEq, Repr

/-- A block header. The `block_num` field is the value of
`BlockHeader::block_num()`; `payload` stands for all other header fields
(previous hash, tree roots, version, timestamp, ...). -/
structure BlockHeader where
  block_num : Nat
  payload : Nat
deriving DecidableEq, Repr

/-- The whole store: the four SQL tables.  The `block_headers` table's
`block_num` column is always written as `header.block_num()`, so its rows are
fully determined by the stored headers and the table is a list of headers. -/
structure DbState where
  accounts : List AccountRow
  nullifiers : List NullifierRow
  notes : List Note
  headers : List BlockHeader
deriving DecidableEq, Repr

/-- Model of `DatabaseError` variants of `store/src/errors.rs` relevant to the
modelled functions. -/
inductive DatabaseError where
  | accountNotFoundInDb (account_id : Nat)
  | accountNotOnChain (account_id : Nat)
  | applyBlockFailedAccountHashesMismatch (calculated expected : Digest)
  | applyDeltaFailed
deriving DecidableEq, Repr

/-- Model of `StateSyncError`: either a database error or the distinguished
empty-block-header-table error. -/
inductive StateSyncError where
  | databaseError (e : DatabaseError)
  | emptyBlockHeadersTable
deriving DecidableEq, Repr

/-- Model of `StateSyncUpdate` returned by `get_state_sync`. -/
structure StateSyncUpdate where
  notes : List Note
  block_header : BlockHeader
  chain_tip : Nat
  account_updates : List AccountSummary
  nullifiers : List NullifierInfo
deriving DecidableEq, Repr

-- LIST HELPERS (the semantics of ORDER BY and of MIN over a column)
-- =============================================================================

/-- Insert `x` into a list sorted by `key` ascending, keeping it sorted. -/
def insertSorted (key : α → Nat) (x : α) : List α → List α
  | [] => [x]
  | y :: ys => if key x ≤ key y then x :: y :: ys else y :: insertSorted key x ys

/-- Sort a list by `key` ascending: the semantics of `ORDER BY key ASC`. -/
def sortByKey (key : α → Nat) : List α → List α
  | [] => []
  | x :: xs => insertSorted key x (sortByKey key xs)

theorem mem_insertSorted (key : α → Nat) (x a : α) (l : List α) :
    a ∈ insertSorted key x l ↔ a = x ∨ a ∈ l := by
  induction l with
  | nil => simp [insertSorted]
  | cons y ys ih =>
    by_cases h : key x ≤ key y
    · simp [insertSorted, h]
    · simp only [insertSorted, if_neg h, List.mem_cons, ih]
      tauto

theorem mem_sortByKey (key : α → Nat) (a : α) (l : List α) :
    a ∈ sortByKey key l ↔ a ∈ l := by
  induction l with
  | nil => simp [sortByKey]
  | cons x xs ih => simp [sortByKey, mem_insertSorted, ih]

theorem pairwise_insertSorted (key : α → Nat) (x : α) (l : List α)
    (h : l.Pairwise (fun a b => key a ≤ key b)) :
    (insertSorted key x l).Pairwise (fun a b => key a ≤ key b) := by
  induction l with
  | nil => simp [insertSorted]
  | cons y ys ih =>
    rcases List.pairwise_cons.mp h with ⟨hy, hys⟩
    by_cases hxy : key x ≤ key y
    · rw [insertSorted, if_pos hxy]
      refine List.pairwise_cons.mpr ⟨?_, h⟩
      intro b hb
      rcases List.mem_cons.mp hb with rfl | hb
      · exact hxy
      · exact Nat.le_trans hxy (hy b hb)
    · rw [insertSorted, if_neg hxy]
      refine List.pairwise_cons.mpr ⟨?_, ih hys⟩
      intro b hb
      rcases (mem_insertSorted key x b ys).mp hb with rfl | hb
      · exact Nat.le_of_lt (Nat.lt_of_not_le hxy)
      · exact hy b hb

theorem pairwise_sortByKey (key : α → Nat) (l : List α) :
    (sortByKey key l).Pairwise (fun a b => key a ≤ key b) := by
  induction l with
  | nil => simp [sortByKey]
  | cons x xs ih => exact pairwise_insertSorted key x _ ih

/-- The minimum of a list of naturals: the semantics of
`ORDER BY k ASC LIMIT 1` over the column `k`. -/
def listMin : List Nat → Option Nat
  | [] => none
  | x :: xs =>
    some (match listMin xs with
      | none => x
      | some m => if x ≤ m then x else m)

theorem listMin_eq_none (l : List Nat) : listMin l = none ↔ l = [] := by
  cases l <;> simp [listMin]

theorem listMin_mem (l : List Nat) (m : Nat) (h : listMin l = some m) : m ∈ l := by
  induction l generalizing m with
  | nil => simp [listMin] at h
  | cons x xs ih =>
    simp only [listMin] at h
    cases hxs : listMin xs with
    | none => rw [hxs] at h; simp at h; simp [h]
    | some m' =>
      rw [hxs] at h
      simp only [Option.some.injEq] at h
      have hd : m = x ∨ m = m' := by split at h <;> omega
      rcases hd with rfl | rfl
      · simp
      · simp [ih m hxs]

theorem listMin_le (l : List Nat) (m : Nat) (h : listMin l = some m) :
    ∀ x ∈ l, m ≤ x := by
  induction l generalizing m with
  | nil => simp [listMin] at h
  | cons x xs ih =>
    intro y hy
    simp only [listMin] at h
    cases hxs : listMin xs with
    | none =>
      rw [hxs] at h
      simp only [Option.some.injEq] at h
      rcases List.mem_cons.mp hy with hyx | hy
      · omega
      · rw [listMin_eq_none] at hxs; simp [hxs] at hy
    | some m' =>
      rw [hxs] at h
      simp only [Option.some.injEq] at h
      rcases List.mem_cons.mp hy with hyx | hy
      · subst hyx
        split at h <;> omega
      · have h2 := ih m' hxs y hy
        split at h <;> omega

-- ACCOUNT QUERIES (`store/src/db/sql.rs`)
-- =============================================================================

/-- Model of `SELECT ... FROM accounts WHERE account_id = ?1 LIMIT 1` — `account_id`
is the table's primary key, so at most one row matches. -/
def findRow (table : List AccountRow) (account_id : Nat) : Option AccountRow :=
  table.find? fun r => decide (r.account_id = account_id)

/-- Model of `INSERT OR REPLACE INTO accounts ...`: the row with the same primary key
(if any) is removed and the new row is inserted. -/
def upsertRow (table : List AccountRow) (r : AccountRow) : List AccountRow :=
  table.filter (fun x => decide (x.account_id ≠ r.account_id)) ++ [r]

/-- The body of `apply_delta` in `store/src/db/sql.rs` (lines 776-800):
decode the stored details blob (`NULL` means the account is not on chain),
apply the delta, recompute the hash and compare it with the declared final
state hash.  `hashAcc` models `Account::hash` and `applyDeltaFn` models
`Account::apply_delta` (`none` is the failing case) — both live in the
external `miden_objects` crate. -/
def apply_delta (hashAcc : Account → Digest)
    (applyDeltaFn : Account → AccountDelta → Option Account)
    (account_id : Nat) (value : Option Account) (d : AccountDelta)
    (final_state_hash : Digest) : Except DatabaseError Account :=
  match value with
  | none => .error (.accountNotOnChain account_id)
  | some account =>
    match applyDeltaFn account d with
    | none => .error .applyDeltaFailed
    | some account2 =>
      if hashAcc account2 = final_state_hash then .ok account2
      else .error (.applyBlockFailedAccountHashesMismatch (hashAcc account2) final_state_hash)

/-- One iteration of the loop of `upsert_accounts` (lines 156-210): compute
the optional full account to store (checking hashes, loading the stored
snapshot for a delta) and execute the `INSERT OR REPLACE`. -/
def processUpdate (hashAcc : Account → Digest)
    (applyDeltaFn : Account → AccountDelta → Option Account)
    (table : List AccountRow) (update : AccountUpdateDetails) (block_num : Nat) :
    Except DatabaseError (List AccountRow) :=
  match update.details with
  | none =>
    .ok (upsertRow table
      { account_id := update.account_id, account_hash := update.final_state_hash,
        block_num := block_num, details := none })
  | some (.full account) =>
    if hashAcc account = update.final_state_hash then
      .ok (upsertRow table
        { account_id := update.account_id, account_hash := update.final_state_hash,
          block_num := block_num, details := some account })
    else
      .error (.applyBlockFailedAccountHashesMismatch (hashAcc account) update.final_state_hash)
  | some (.delta d) =>
    match findRow table update.account_id with
    | none => .error (.accountNotFoundInDb update.account_id)
    | some row =>
      match apply_delta hashAcc applyDeltaFn update.account_id row.details d
          update.final_state_hash with
      | .error e => .error e
      | .ok account2 =>
        .ok (upsertRow table
          { account_id := update.account_id, account_hash := update.final_state_hash,
            block_num := block_num, details := some account2 })

/-- Model of `upsert_accounts` (lines 156-210): process the updates in order inside
the active transaction — later iterations see rows written by earlier ones —
returning the number of affected rows (one per update). -/
def upsert_accounts (hashAcc : Account → Digest)
    (applyDeltaFn : Account → AccountDelta → Option Account)
    (table : List AccountRow) (accounts : List AccountUpdateDetails)
    (block_num : Nat) : Except DatabaseError (List AccountRow × Nat) :=
  match accounts with
  | [] => .ok (table, 0)
  | update :: rest =>
    match processUpdate hashAcc applyDeltaFn table update block_num with
    | .error e => .error e
    | .ok table2 =>
      match upsert_accounts hashAcc applyDeltaFn table2 rest block_num with
      | .error e => .error e
      | .ok (table3, count) => .ok (table3, count + 1)

/-- Model of `select_accounts_by_block_range` (lines 85-118): rows with
`block_num > block_start AND block_num <= block_end AND account_id IN ids`,
ordered by `block_num` ascending. -/
def select_accounts_by_block_range (db : DbState) (block_start block_end : Nat)
    (account_ids : List Nat) : List AccountSummary :=
  sortByKey (fun s => s.block_num)
    ((db.accounts.filter fun r =>
        decide (block_start < r.block_num) && decide (r.block_num ≤ block_end) &&
        decide (r.account_id ∈ account_ids)).map
      fun r => { account_id := r.account_id, account_hash := r.account_hash,
                 block_num := r.block_num })

-- NULLIFIER QUERIES
-- =============================================================================

/-- Model of `get_nullifier_prefix` (lines 714-717):
`(nullifier.most_significant_felt().as_int() >> 48) as u32`. -/
def getNullifierPfx (nullifier : Nullifier) : Nat :=
  (nullifier.msf >>> 48) % 2 ^ 32

/-- Model of `insert_nullifiers_for_block` (lines 225-240): append one row per
nullifier, with the derived prefix column, returning the affected row
count. -/
def insert_nullifiers_for_block (db : DbState) (nullifiers : List Nullifier)
    (block_num : Nat) : DbState × Nat :=
  ({ db with nullifiers := db.nullifiers ++ nullifiers.map fun n =>
      { nullifier := n, nullifierPfx := getNullifierPfx n, block_num := block_num } },
    nullifiers.length)

/-- Model of `select_nullifiers_by_block_range` (lines 272-307): rows with
`block_num > block_start AND block_num <= block_end AND nullifier_prefix IN`
the given set, ordered by `block_num` ascending. -/
def select_nullifiers_by_block_range (db : DbState) (block_start block_end : Nat)
    (nullifierPfxes : List Nat) : List NullifierInfo :=
  sortByKey (fun i => i.block_num)
    ((db.nullifiers.filter fun r =>
        decide (block_start < r.block_num) && decide (r.block_num ≤ block_end) &&
        decide (r.nullifierPfx ∈ nullifierPfxes)).map
      fun r => { nullifier := r.nullifier, block_num := r.block_num })

-- NOTE QUERIES
-- =============================================================================

/-- The `WHERE` predicate shared by both phases of
`select_notes_since_block_by_tag_and_sender`:
`tag IN rarray(?1) OR sender IN rarray(?2)`. -/
def noteMatches (tags account_ids : List Nat) (n : Note) : Bool :=
  decide (n.note_created.tag ∈ tags) || decide (n.note_created.sender ∈ account_ids)

/-- The inner sub-query of `select_notes_since_block_by_tag_and_sender`:
`SELECT block_num FROM notes WHERE (tag IN ... OR sender IN ...) AND
block_num > ?3 ORDER BY block_num ASC LIMIT 1` — the smallest matching block
number strictly above `block_num`, or `none`. -/
def minMatchingBlock (db : DbState) (tags account_ids : List Nat)
    (block_num : Nat) : Option Nat :=
  listMin ((db.notes.filter fun n =>
      noteMatches tags account_ids n && decide (block_num < n.block_num)).map
    fun n => n.block_num)

/-- Model of `insert_notes` (lines 377-417): append the notes, returning the affected
row count. -/
def insert_notes (db : DbState) (notes : List Note) : DbState × Nat :=
  ({ db with notes := db.notes ++ notes }, notes.length)

/-- Model of `select_notes_since_block_by_tag_and_sender` (lines 431-506): all notes
whose `block_num` equals the inner sub-query's result and which match the
same tag/sender predicate; when the sub-query yields no block the `=`
comparison with SQL `NULL` is false for every row and the result is empty. -/
def select_notes_since_block_by_tag_and_sender (db : DbState)
    (tags account_ids : List Nat) (block_num : Nat) : List Note :=
  match minMatchingBlock db tags account_ids block_num with
  | none => []
  | some m =>
    db.notes.filter fun n =>
      decide (n.block_num = m) && noteMatches tags account_ids n

-- BLOCK CHAIN QUERIES
-- =============================================================================

/-- Model of `insert_block_header` (lines 578-582): insert
`(header.block_num(), header)`, returning the affected row count. -/
def insert_block_header (db : DbState) (block_header : BlockHeader) : DbState × Nat :=
  ({ db with headers := db.headers ++ [block_header] }, 1)

/-- Model of `ORDER BY block_num DESC LIMIT 1`: a header with the maximal block
number, or `none` on an empty table. -/
def latestHeader : List BlockHeader → Option BlockHeader
  | [] => none
  | h :: hs =>
    some (match latestHeader hs with
      | none => h
      | some m => if m.block_num ≤ h.block_num then h else m)

/-- Model of `select_block_header_by_block_num` (lines 590-615): `none` as the
argument means "latest". -/
def select_block_header_by_block_num (db : DbState) :
    Option Nat → Option BlockHeader
  | some block_number => db.headers.find? fun h => decide (h.block_num = block_number)
  | none => latestHeader db.headers

-- STATE SYNC
-- =============================================================================

/-- Model of `get_state_sync` (lines 640-686). -/
def get_state_sync (db : DbState) (block_num : Nat) (account_ids : List Nat)
    (note_tags nullifierPfxes : List Nat) :
    Except StateSyncError StateSyncUpdate :=
  let notes := select_notes_since_block_by_tag_and_sender db note_tags account_ids block_num
  match notes with
  | [] =>
    match select_block_header_by_block_num db none with
    | none => .error .emptyBlockHeadersTable
    | some block_header =>
      .ok { notes := [], block_header := block_header,
            chain_tip := block_header.block_num,
            account_updates :=
              select_accounts_by_block_range db block_num block_header.block_num account_ids,
            nullifiers :=
              select_nullifiers_by_block_range db block_num block_header.block_num
                nullifierPfxes }
  | n0 :: rest =>
    match select_block_header_by_block_num db (some n0.block_num) with
    | none => .error .emptyBlockHeadersTable
    | some block_header =>
      match select_block_header_by_block_num db none with
      | none => .error .emptyBlockHeadersTable
      | some tip =>
        .ok { notes := n0 :: rest, block_header := block_header,
              chain_tip := tip.block_num,
              account_updates :=
                select_accounts_by_block_range db block_num block_header.block_num account_ids,
              nullifiers :=
                select_nullifiers_by_block_range db block_num block_header.block_num
                  nullifierPfxes }

-- APPLY BLOCK
-- =============================================================================

/-- Model of `apply_block` (lines 696-709): header insert, then note inserts, then
account upserts, then nullifier inserts, all in one transaction; an error
anywhere aborts the whole call. -/
def apply_block (hashAcc : Account → Digest)
    (applyDeltaFn : Account → AccountDelta → Option Account)
    (db : DbState) (block_header : BlockHeader) (notes : List Note)
    (nullifiers : List Nullifier) (accounts : List AccountUpdateDetails) :
    Except DatabaseError (DbState × Nat) :=
  let (db1, c1) := insert_block_header db block_header
  let (db2, c2) := insert_notes db1 notes
  match upsert_accounts hashAcc applyDeltaFn db2.accounts accounts
      block_header.block_num with
  | .error e => .error e
  | .ok (accountsTable, c3) =>
    let db3 := { db2 with accounts := accountsTable }
    let (db4, c4) := insert_nullifiers_for_block db3 nullifiers block_header.block_num
    .ok (db4, c1 + c2 + c3 + c4)

-- SUPPORTING LEMMAS
-- =============================================================================

theorem findRow_upsertRow (table : List AccountRow) (r : AccountRow) :
    findRow (upsertRow table r) r.account_id = some r := by
  unfold findRow upsertRow
  induction table with
  | nil => simp [List.find?]
  | cons x xs ih =>
    by_cases hx : x.account_id = r.account_id
    · simpa [List.filter, hx] using ih
    · simpa [List.filter, hx, List.find?, decide_eq_true_iff] using ih

theorem upsert_accounts_ok_count (hashAcc : Account → Digest)
    (applyDeltaFn : Account → AccountDelta → Option Account)
    (accounts : List AccountUpdateDetails) :
    ∀ table block_num table2 count,
      upsert_accounts hashAcc applyDeltaFn table accounts block_num =
        .ok (table2, count) → count = accounts.length := by
  induction accounts with
  | nil =>
    intro table block_num table2 count h
    unfold upsert_accounts at h
    cases h
    rfl
  | cons u rest ih =>
    intro table block_num table2 count h
    unfold upsert_accounts at h
    split at h
    · exact absurd h (by simp)
    · split at h
      · exact absurd h (by simp)
      · cases h
        rename_i hp hr
        simpa using ih _ _ _ _ hr

-- CONCRETE SAMPLE INPUTS (used by the witness theorems)
-- =============================================================================

/-- A sample instantiation of the opaque `Account::hash`. -/
def hashW : Account → Digest := fun a => a.state

/-- A sample instantiation of the opaque `Account::apply_delta`:
adds the delta payload to the account state. -/
def applyDW : Account → AccountDelta → Option Account :=
  fun a d => some { id := a.id, state := a.state + d }

/-- A full-snapshot update whose snapshot hashes to 7 but declares 5. -/
def uFullBad : AccountUpdateDetails :=
  { account_id := 1, final_state_hash := 5, details := some (.full { id := 1, state := 7 }) }

/-- A delta update for account 1 declaring final hash 5. -/
def uDeltaW : AccountUpdateDetails :=
  { account_id := 1, final_state_hash := 5, details := some (.delta 2) }

/-- A stored record for account 1 tracking only the hash (NULL details). -/
def rowHashOnly : AccountRow :=
  { account_id := 1, account_hash := 5, block_num := 1, details := none }

/-- A stored record for account 1 with a full snapshot. -/
def rowFull : AccountRow :=
  { account_id := 1, account_hash := 7, block_num := 1, details := some { id := 1, state := 7 } }

/-- A pure hash update for account 1 (neither snapshot nor delta). -/
def uHashOnly : AccountUpdateDetails :=
  { account_id := 1, final_state_hash := 5, details := none }

/-- A sample block header. -/
def hdrW : BlockHeader := { block_num := 2, payload := 0 }

/-- The accounts-table row written by a pure hash update: the declared final
hash, the inserting block number, and NULL details. -/
def bareRow (account_id : Nat) (account_hash : Digest) (block_num : Nat) : AccountRow :=
  { account_id := account_id, account_hash := account_hash, block_num := block_num,
    details := none }

-- CLAIM THEOREMS
-- =============================================================================

/-- C1: for every account update processed by `upsert_accounts`, if the hash
of the full account state — the supplied full snapshot, or the snapshot
reconstructed by applying the delta to the stored snapshot — does not equal
the update's declared final hash, the call fails with the
`ApplyBlockFailedAccountHashesMismatch` (hash-mismatch) error kind, and the
update is not stored (the call returns no updated table). -/
theorem upsert_accounts_hash_mismatch_fails
    (hashAcc : Account → Digest) (applyDeltaFn : Account → AccountDelta → Option Account)
    (table : List AccountRow) (u : AccountUpdateDetails)
    (rest : List AccountUpdateDetails) (block_num : Nat)
    (h : (∃ a, u.details = some (.full a) ∧ hashAcc a ≠ u.final_state_hash) ∨
         (∃ d row acc acc2, u.details = some (.delta d) ∧
            findRow table u.account_id = some row ∧ row.details = some acc ∧
            applyDeltaFn acc d = some acc2 ∧ hashAcc acc2 ≠ u.final_state_hash)) :
    (∃ calcHash, upsert_accounts hashAcc applyDeltaFn table (u :: rest) block_num =
        .error (.applyBlockFailedAccountHashesMismatch calcHash u.final_state_hash) ∧
      calcHash ≠ u.final_state_hash) ∧
    ∀ out, upsert_accounts hashAcc applyDeltaFn table (u :: rest) block_num ≠ .ok out := by
  rcases h with ⟨a, hd, hne⟩ | ⟨d, row, acc, acc2, hd, hrow, hdet, happ, hne⟩
  · have hp : processUpdate hashAcc applyDeltaFn table u block_num =
        .error (.applyBlockFailedAccountHashesMismatch (hashAcc a) u.final_state_hash) := by
      simp [processUpdate, hd, hne]
    refine ⟨⟨hashAcc a, ?_, hne⟩, ?_⟩
    · simp [upsert_accounts, hp]
    · intro out
      simp [upsert_accounts, hp]
  · have hp : processUpdate hashAcc applyDeltaFn table u block_num =
        .error (.applyBlockFailedAccountHashesMismatch (hashAcc acc2) u.final_state_hash) := by
      simp [processUpdate, hd, hrow, apply_delta, hdet, happ, hne]
    refine ⟨⟨hashAcc acc2, ?_, hne⟩, ?_⟩
    · simp [upsert_accounts, hp]
    · intro out
      simp [upsert_accounts, hp]

/-- C1 witness: with a concrete hash function and a full-snapshot update
whose computed hash (7) differs from the declared hash (5), the call fails
with the hash-mismatch kind carrying both hashes. -/
theorem upsert_accounts_hash_mismatch_fails_witness :
    upsert_accounts hashW applyDW [] [uFullBad] 3 =
      .error (.applyBlockFailedAccountHashesMismatch 7 5) := by
  obtain ⟨⟨c, hc, -⟩, -⟩ := upsert_accounts_hash_mismatch_fails hashW applyDW []
    uFullBad [] 3 (Or.inl ⟨{ id := 1, state := 7 }, rfl, by decide⟩)
  have hcomp : upsert_accounts hashW applyDW [] [uFullBad] 3 =
      .error (.applyBlockFailedAccountHashesMismatch 7 5) := rfl
  have hc7 : c = 7 := by
    rw [hcomp] at hc
    cases hc
    rfl
  exact hc7 ▸ hc

/-- C2: for a delta update, `upsert_accounts` fails with `AccountNotFoundInDb`
when no record for the account id is stored, and with `AccountNotOnChain`
when a record is stored without full details (NULL details); in either case
the call fails, and `apply_block` on a store whose record for the account has
no full snapshot fails with the `AccountNotOnChain` kind. -/
theorem upsert_accounts_delta_missing_snapshot_errors
    (hashAcc : Account → Digest) (applyDeltaFn : Account → AccountDelta → Option Account)
    (u : AccountUpdateDetails) (d : AccountDelta)
    (hu : u.details = some (.delta d)) :
    (∀ table rest block_num, findRow table u.account_id = none →
        upsert_accounts hashAcc applyDeltaFn table (u :: rest) block_num =
          .error (.accountNotFoundInDb u.account_id)) ∧
    (∀ table row rest block_num, findRow table u.account_id = some row →
        row.details = none →
        upsert_accounts hashAcc applyDeltaFn table (u :: rest) block_num =
          .error (.accountNotOnChain u.account_id)) ∧
    (∀ db hdr notes nulls rest row, findRow db.accounts u.account_id = some row →
        row.details = none →
        apply_block hashAcc applyDeltaFn db hdr notes nulls (u :: rest) =
          .error (.accountNotOnChain u.account_id)) := by
  have hNotFound : ∀ table rest block_num, findRow table u.account_id = none →
      upsert_accounts hashAcc applyDeltaFn table (u :: rest) block_num =
        .error (.accountNotFoundInDb u.account_id) := by
    intro table rest block_num hrow
    have hp : processUpdate hashAcc applyDeltaFn table u block_num =
        .error (.accountNotFoundInDb u.account_id) := by
      simp [processUpdate, hu, hrow]
    simp [upsert_accounts, hp]
  have hNotOnChain : ∀ table row rest block_num, findRow table u.account_id = some row →
      row.details = none →
      upsert_accounts hashAcc applyDeltaFn table (u :: rest) block_num =
        .error (.accountNotOnChain u.account_id) := by
    intro table row rest block_num hrow hdet
    have hp : processUpdate hashAcc applyDeltaFn table u block_num =
        .error (.accountNotOnChain u.account_id) := by
      simp [processUpdate, hu, hrow, apply_delta, hdet]
    simp [upsert_accounts, hp]
  refine ⟨hNotFound, hNotOnChain, ?_⟩
  intro db hdr notes nulls rest row hrow hdet
  have hup := hNotOnChain db.accounts row rest hdr.block_num hrow hdet
  simp [apply_block, insert_block_header, insert_notes, hup]

/-- C2 witness: account 1 absent gives `AccountNotFoundInDb`; account 1
stored hash-only gives `AccountNotOnChain`, both for `upsert_accounts` alone
and through `apply_block`. -/
theorem upsert_accounts_delta_missing_snapshot_errors_witness :
    upsert_accounts hashW applyDW [] [uDeltaW] 9 =
      .error (.accountNotFoundInDb 1) ∧
    upsert_accounts hashW applyDW [rowHashOnly] [uDeltaW] 9 =
      .error (.accountNotOnChain 1) ∧
    apply_block hashW applyDW
      { accounts := [rowHashOnly], nullifiers := [], notes := [], headers := [] }
      hdrW [] [] [uDeltaW] = .error (.accountNotOnChain 1) := by
  obtain ⟨h1, h2, h3⟩ :=
    upsert_accounts_delta_missing_snapshot_errors hashW applyDW uDeltaW 2 rfl
  exact ⟨h1 [] [] 9 rfl, h2 [rowHashOnly] rowHashOnly [] 9 (by decide) rfl,
    h3 { accounts := [rowHashOnly], nullifiers := [], notes := [], headers := [] }
      hdrW [] [] [] rowHashOnly (by decide) rfl⟩

/-- C10: a pure hash update (neither full snapshot nor delta) for an account
whose stored record has full details replaces the record, storing NULL
details and the new hash/block number; a later delta update for the same id
then fails with the `AccountNotOnChain` kind. -/
theorem upsert_accounts_hash_only_update_erases_details
    (hashAcc : Account → Digest) (applyDeltaFn : Account → AccountDelta → Option Account)
    (table : List AccountRow) (u : AccountUpdateDetails) (block_num : Nat)
    (row : AccountRow) (acc : Account)
    (_hrow : findRow table u.account_id = some row) (_hdet : row.details = some acc)
    (hu : u.details = none) :
    upsert_accounts hashAcc applyDeltaFn table [u] block_num =
      .ok (upsertRow table (bareRow u.account_id u.final_state_hash block_num), 1) ∧
    findRow (upsertRow table (bareRow u.account_id u.final_state_hash block_num))
      u.account_id = some (bareRow u.account_id u.final_state_hash block_num) ∧
    (∀ u2 d rest block_num2, u2.account_id = u.account_id →
        u2.details = some (.delta d) →
        upsert_accounts hashAcc applyDeltaFn
          (upsertRow table (bareRow u.account_id u.final_state_hash block_num))
          (u2 :: rest) block_num2 =
          .error (.accountNotOnChain u2.account_id)) := by
  have hp : processUpdate hashAcc applyDeltaFn table u block_num =
      .ok (upsertRow table (bareRow u.account_id u.final_state_hash block_num)) := by
    simp [processUpdate, hu, bareRow]
  have hfind := findRow_upsertRow table (bareRow u.account_id u.final_state_hash block_num)
  refine ⟨?_, hfind, ?_⟩
  · simp [upsert_accounts, hp]
  · intro u2 d rest block_num2 hid hu2
    have hfind2 : findRow (upsertRow table (bareRow u.account_id u.final_state_hash block_num))
        u2.account_id = some (bareRow u.account_id u.final_state_hash block_num) := by
      rw [hid]; exact hfind
    exact (upsert_accounts_delta_missing_snapshot_errors hashAcc applyDeltaFn
      u2 d hu2).2.1 _ _ rest block_num2 hfind2 rfl

/-- C10 witness: account 1 stored with a full snapshot, then a pure hash
update, then a delta update that fails with `AccountNotOnChain`. -/
theorem upsert_accounts_hash_only_update_erases_details_witness :
    upsert_accounts hashW applyDW [rowFull] [uHashOnly] 3 =
      .ok (upsertRow [rowFull] (bareRow 1 5 3), 1) ∧
    findRow (upsertRow [rowFull] (bareRow 1 5 3)) 1 = some (bareRow 1 5 3) ∧
    upsert_accounts hashW applyDW (upsertRow [rowFull] (bareRow 1 5 3)) [uDeltaW] 4 =
      .error (.accountNotOnChain 1) := by
  obtain ⟨h1, h2, h3⟩ :=
    upsert_accounts_hash_only_update_erases_details hashW applyDW [rowFull]
      uHashOnly 3 rowFull { id := 1, state := 7 } (by decide) rfl rfl
  exact ⟨h1, h2, h3 uDeltaW 2 [] 4 rfl rfl⟩

/-- A sample note matching tag 5, created in block 2. -/
def noteW1 : Note :=
  { block_num := 2,
    note_created := { batch_index := 0, note_index := 0, note_id := 11, note_type := 1,
                      sender := 100, tag := 5, details := none },
    merkle_path := 0 }

/-- A sample note matching tag 5, created in block 3. -/
def noteW2 : Note :=
  { block_num := 3,
    note_created := { batch_index := 0, note_index := 1, note_id := 12, note_type := 1,
                      sender := 100, tag := 5, details := none },
    merkle_path := 0 }

/-- A sample note with a different tag and sender, created in block 2. -/
def noteW3 : Note :=
  { block_num := 2,
    note_created := { batch_index := 1, note_index := 0, note_id := 13, note_type := 1,
                      sender := 200, tag := 9, details := none },
    merkle_path := 0 }

/-- A sample store holding the three sample notes. -/
def dbNotesW : DbState :=
  { accounts := [], nullifiers := [], notes := [noteW2, noteW1, noteW3], headers := [] }

/-- C3: one call to `select_notes_since_block_by_tag_and_sender` returns
notes of a single block only: the smallest block number strictly greater
than `block_num` containing a note whose tag is in the tag set or whose
sender is in the account-id set; it returns exactly the notes of that block
satisfying the predicate, and the empty list when no such block exists. -/
theorem select_notes_since_block_single_block (db : DbState)
    (tags account_ids : List Nat) (block_num : Nat) :
    (∀ n1 ∈ select_notes_since_block_by_tag_and_sender db tags account_ids block_num,
       ∀ n2 ∈ select_notes_since_block_by_tag_and_sender db tags account_ids block_num,
         n1.block_num = n2.block_num) ∧
    (∀ m, minMatchingBlock db tags account_ids block_num = some m →
       block_num < m ∧
       (∃ n ∈ db.notes, noteMatches tags account_ids n = true ∧ n.block_num = m) ∧
       (∀ n ∈ db.notes, noteMatches tags account_ids n = true →
          block_num < n.block_num → m ≤ n.block_num) ∧
       select_notes_since_block_by_tag_and_sender db tags account_ids block_num ≠ [] ∧
       (∀ n, n ∈ select_notes_since_block_by_tag_and_sender db tags account_ids block_num ↔
          n ∈ db.notes ∧ noteMatches tags account_ids n = true ∧ n.block_num = m)) ∧
    (minMatchingBlock db tags account_ids block_num = none →
       (∀ n ∈ db.notes, noteMatches tags account_ids n = true →
          ¬ block_num < n.block_num) ∧
       select_notes_since_block_by_tag_and_sender db tags account_ids block_num = []) := by
  refine ⟨?_, ?_, ?_⟩
  · intro n1 h1 n2 h2
    unfold select_notes_since_block_by_tag_and_sender at h1 h2
    cases hm : minMatchingBlock db tags account_ids block_num with
    | none => rw [hm] at h1; simp at h1
    | some m =>
      rw [hm] at h1 h2
      have e1 := (List.mem_filter.mp h1).2
      have e2 := (List.mem_filter.mp h2).2
      simp only [Bool.and_eq_true, decide_eq_true_eq] at e1 e2
      rw [e1.1, e2.1]
  · intro m hm
    have hmem : ∀ n, n ∈ select_notes_since_block_by_tag_and_sender db tags account_ids
        block_num ↔ n ∈ db.notes ∧ noteMatches tags account_ids n = true ∧
          n.block_num = m := by
      intro n
      unfold select_notes_since_block_by_tag_and_sender
      rw [hm]
      rw [List.mem_filter]
      simp only [Bool.and_eq_true, decide_eq_true_eq]
      tauto
    have hmmem := listMin_mem _ _ hm
    simp only [List.mem_map, List.mem_filter, Bool.and_eq_true, decide_eq_true_eq] at hmmem
    obtain ⟨n, ⟨hn, hmatch, hgt⟩, hnb⟩ := hmmem
    refine ⟨hnb ▸ hgt, ⟨n, hn, hmatch, hnb⟩, ?_, ?_, hmem⟩
    · intro n2 hn2 hmatch2 hgt2
      exact listMin_le _ _ hm n2.block_num
        (List.mem_map.mpr ⟨n2, List.mem_filter.mpr ⟨hn2, by simp [hmatch2, hgt2]⟩, rfl⟩)
    · exact List.ne_nil_of_mem ((hmem n).mpr ⟨hn, hmatch, hnb⟩)
  · intro hm
    have hfe : (db.notes.filter fun n =>
        noteMatches tags account_ids n && decide (block_num < n.block_num)) = [] := by
      have := (listMin_eq_none _).mp hm
      exact List.map_eq_nil_iff.mp this
    refine ⟨?_, ?_⟩
    · intro n hn hmatch hgt
      have : n ∈ (db.notes.filter fun n =>
          noteMatches tags account_ids n && decide (block_num < n.block_num)) :=
        List.mem_filter.mpr ⟨hn, by simp [hmatch, hgt]⟩
      rw [hfe] at this
      simp at this
    · unfold select_notes_since_block_by_tag_and_sender
      rw [hm]

/-- C3 witness: with notes at blocks 2 and 3 tagged 5 and an unrelated note
at block 2, the query after block 0 targets block 2 and contains exactly the
matching block-2 note. -/
theorem select_notes_since_block_single_block_witness :
    0 < 2 ∧
    select_notes_since_block_by_tag_and_sender dbNotesW [5] [] 0 ≠ [] ∧
    (noteW1 ∈ select_notes_since_block_by_tag_and_sender dbNotesW [5] [] 0 ↔
      noteW1 ∈ dbNotesW.notes ∧ noteMatches [5] [] noteW1 = true ∧
        noteW1.block_num = 2) := by
  obtain ⟨hlt, -, -, hne, hiff⟩ :=
    (select_notes_since_block_single_block dbNotesW [5] [] 0).2.1 2 (by decide)
  exact ⟨hlt, hne, hiff noteW1⟩

/-- C6: `select_accounts_by_block_range` and
`select_nullifiers_by_block_range` select exactly the records with
`a < block_num ≤ b` whose account id (resp. prefix) is in the given set,
ordered by block number ascending; hence they never include a record with
`block_num = a` and always include a matching record with `block_num = b`. -/
theorem select_by_block_range_bounds (db : DbState) (a b : Nat)
    (account_ids nullifierPfxes : List Nat) :
    (∀ s, s ∈ select_accounts_by_block_range db a b account_ids ↔
       ∃ r, r ∈ db.accounts ∧ a < r.block_num ∧ r.block_num ≤ b ∧
         r.account_id ∈ account_ids ∧
         s = { account_id := r.account_id, account_hash := r.account_hash,
               block_num := r.block_num }) ∧
    (∀ s ∈ select_accounts_by_block_range db a b account_ids, s.block_num ≠ a) ∧
    (∀ r ∈ db.accounts, a < b → r.block_num = b → r.account_id ∈ account_ids →
       ({ account_id := r.account_id, account_hash := r.account_hash,
          block_num := r.block_num } : AccountSummary) ∈
         select_accounts_by_block_range db a b account_ids) ∧
    List.Pairwise (fun s t => s.block_num ≤ t.block_num)
      (select_accounts_by_block_range db a b account_ids) ∧
    (∀ i, i ∈ select_nullifiers_by_block_range db a b nullifierPfxes ↔
       ∃ r, r ∈ db.nullifiers ∧ a < r.block_num ∧ r.block_num ≤ b ∧
         r.nullifierPfx ∈ nullifierPfxes ∧
         i = { nullifier := r.nullifier, block_num := r.block_num }) ∧
    (∀ i ∈ select_nullifiers_by_block_range db a b nullifierPfxes, i.block_num ≠ a) ∧
    (∀ r ∈ db.nullifiers, a < b → r.block_num = b → r.nullifierPfx ∈ nullifierPfxes →
       ({ nullifier := r.nullifier, block_num := r.block_num } : NullifierInfo) ∈
         select_nullifiers_by_block_range db a b nullifierPfxes) ∧
    List.Pairwise (fun s t => s.block_num ≤ t.block_num)
      (select_nullifiers_by_block_range db a b nullifierPfxes) := by
  have hmemA : ∀ s, s ∈ select_accounts_by_block_range db a b account_ids ↔
      ∃ r, r ∈ db.accounts ∧ a < r.block_num ∧ r.block_num ≤ b ∧
        r.account_id ∈ account_ids ∧
        s = { account_id := r.account_id, account_hash := r.account_hash,
              block_num := r.block_num } := by
    intro s
    unfold select_accounts_by_block_range
    rw [mem_sortByKey, List.mem_map]
    constructor
    · rintro ⟨r, hr, rfl⟩
      have := List.mem_filter.mp hr
      simp only [Bool.and_eq_true, decide_eq_true_eq] at this
      exact ⟨r, this.1, this.2.1.1, this.2.1.2, this.2.2, rfl⟩
    · rintro ⟨r, hr, h1, h2, h3, rfl⟩
      exact ⟨r, List.mem_filter.mpr ⟨hr, by simp [h1, h2, h3]⟩, rfl⟩
  have hmemN : ∀ i, i ∈ select_nullifiers_by_block_range db a b nullifierPfxes ↔
      ∃ r, r ∈ db.nullifiers ∧ a < r.block_num ∧ r.block_num ≤ b ∧
        r.nullifierPfx ∈ nullifierPfxes ∧
        i = { nullifier := r.nullifier, block_num := r.block_num } := by
    intro i
    unfold select_nullifiers_by_block_range
    rw [mem_sortByKey, List.mem_map]
    constructor
    · rintro ⟨r, hr, rfl⟩
      have := List.mem_filter.mp hr
      simp only [Bool.and_eq_true, decide_eq_true_eq] at this
      exact ⟨r, this.1, this.2.1.1, this.2.1.2, this.2.2, rfl⟩
    · rintro ⟨r, hr, h1, h2, h3, rfl⟩
      exact ⟨r, List.mem_filter.mpr ⟨hr, by simp [h1, h2, h3]⟩, rfl⟩
  refine ⟨hmemA, ?_, ?_, ?_, hmemN, ?_, ?_, ?_⟩
  · intro s hs
    obtain ⟨r, -, h1, -, -, rfl⟩ := (hmemA s).mp hs
    dsimp only
    omega
  · intro r hr hab hrb hid
    exact (hmemA _).mpr ⟨r, hr, by omega, by omega, hid, rfl⟩
  · exact pairwise_sortByKey _ _
  · intro i hi
    obtain ⟨r, -, h1, -, -, rfl⟩ := (hmemN i).mp hi
    dsimp only
    omega
  · intro r hr hab hrb hpfx
    exact (hmemN _).mpr ⟨r, hr, by omega, by omega, hpfx, rfl⟩
  · exact pairwise_sortByKey _ _

/-- A sample nullifier whose most significant limb has the top 16 bits 3. -/
def nullW : Nullifier := { msf := 3 * 2 ^ 48 + 5, rest := 0 }

/-- A sample stored nullifier row at block 2. -/
def nullRowW : NullifierRow :=
  { nullifier := nullW, nullifierPfx := 3, block_num := 2 }

/-- A sample store with one stored account row and one nullifier row. -/
def dbRangeW : DbState :=
  { accounts := [rowFull], nullifiers := [nullRowW], notes := [], headers := [] }

/-- C6 witness: on a store with account 1 updated at block 1 and a nullifier
recorded at block 2, the range (0, 2] includes the account summary and the
nullifier recorded exactly at the range's upper end. -/
theorem select_by_block_range_bounds_witness :
    ({ account_id := 1, account_hash := 7, block_num := 1 } : AccountSummary) ∈
      select_accounts_by_block_range dbRangeW 0 2 [1] ∧
    ({ nullifier := nullW, block_num := 2 } : NullifierInfo) ∈
      select_nullifiers_by_block_range dbRangeW 0 2 [3] := by
  obtain ⟨hmemA, -, -, -, -, -, hNb, -⟩ :=
    select_by_block_range_bounds dbRangeW 0 2 [1] [3]
  refine ⟨(hmemA _).mpr ⟨rowFull, by decide, by decide, by decide, by decide, by decide⟩, ?_⟩
  exact hNb nullRowW (by decide) (by decide) (by decide) (by decide)

/-- C7: the stored prefix computed by `get_nullifier_prefix` equals the top
16 bits (the value shifted right by 48) of the digest's most significant
64-bit limb, and a range query with exactly that prefix and a block range
covering the nullifier's recording block always includes the nullifier. -/
theorem get_nullifier_pfx_correct (d : Nullifier) (db : DbState)
    (nullifiers : List Nullifier) (a b block_num : Nat)
    (hmsf : d.msf < 2 ^ 64) (hd : d ∈ nullifiers)
    (ha : a < block_num) (hb : block_num ≤ b) :
    getNullifierPfx d = d.msf / 2 ^ 48 ∧
    getNullifierPfx d < 2 ^ 16 ∧
    ({ nullifier := d, block_num := block_num } : NullifierInfo) ∈
      select_nullifiers_by_block_range
        (insert_nullifiers_for_block db nullifiers block_num).1 a b
        [getNullifierPfx d] := by
  have hdiv : d.msf / 2 ^ 48 < 2 ^ 16 := by
    apply Nat.div_lt_of_lt_mul
    calc d.msf < 2 ^ 64 := hmsf
    _ = 2 ^ 48 * 2 ^ 16 := by norm_num
  have hpfx : getNullifierPfx d = d.msf / 2 ^ 48 := by
    unfold getNullifierPfx
    rw [Nat.shiftRight_eq_div_pow]
    exact Nat.mod_eq_of_lt (lt_trans hdiv (by norm_num))
  refine ⟨hpfx, hpfx ▸ hdiv, ?_⟩
  unfold select_nullifiers_by_block_range insert_nullifiers_for_block
  rw [mem_sortByKey, List.mem_map]
  refine ⟨{ nullifier := d, nullifierPfx := getNullifierPfx d, block_num := block_num },
    List.mem_filter.mpr ⟨?_, ?_⟩, rfl⟩
  · simp only [List.mem_append, List.mem_map]
    exact Or.inr ⟨d, hd, rfl⟩
  · simp [ha, hb]

/-- C7 witness: a concrete nullifier with most significant limb
`3 * 2 ^ 48 + 5` has prefix 3 and is returned by the covering range query
after insertion at block 2. -/
theorem get_nullifier_pfx_correct_witness :
    getNullifierPfx nullW = nullW.msf / 2 ^ 48 ∧
    getNullifierPfx nullW < 2 ^ 16 ∧
    ({ nullifier := nullW, block_num := 2 } : NullifierInfo) ∈
      select_nullifiers_by_block_range
        (insert_nullifiers_for_block
          { accounts := [], nullifiers := [], notes := [], headers := [] } [nullW] 2).1
        0 2 [getNullifierPfx nullW] :=
  get_nullifier_pfx_correct nullW
    { accounts := [], nullifiers := [], notes := [], headers := [] }
    [nullW] 0 2 2 (by decide) (by decide) (by decide) (by decide)

/-- C8: `apply_block` inserts the header, then the notes, then the account
updates (upserted against the pre-call accounts table, at the header's block
number), then the nullifiers, and on success the affected row count is
1 + number of notes + number of account updates + number of nullifiers. -/
theorem apply_block_order_and_count (hashAcc : Account → Digest)
    (applyDeltaFn : Account → AccountDelta → Option Account)
    (db : DbState) (block_header : BlockHeader) (notes : List Note)
    (nullifiers : List Nullifier) (accounts : List AccountUpdateDetails)
    (out : DbState × Nat)
    (h : apply_block hashAcc applyDeltaFn db block_header notes nullifiers accounts =
      .ok out) :
    upsert_accounts hashAcc applyDeltaFn db.accounts accounts block_header.block_num =
      .ok (out.1.accounts, accounts.length) ∧
    out.1.headers = db.headers ++ [block_header] ∧
    out.1.notes = db.notes ++ notes ∧
    out.1.nullifiers = db.nullifiers ++ nullifiers.map (fun n =>
      { nullifier := n, nullifierPfx := getNullifierPfx n,
        block_num := block_header.block_num }) ∧
    out.2 = 1 + notes.length + accounts.length + nullifiers.length := by
  unfold apply_block at h
  dsimp only [insert_block_header, insert_notes, insert_nullifiers_for_block] at h
  split at h
  · exact absurd h (by simp)
  · rename_i hup
    cases h
    have hc := upsert_accounts_ok_count hashAcc applyDeltaFn accounts _ _ _ _ hup
    subst hc
    exact ⟨hup, rfl, rfl, rfl, rfl⟩

/-- C8 witness: applying a block with one note and one nullifier and no
account updates to an empty store affects 3 rows and writes the three
ledgers. -/
theorem apply_block_order_and_count_witness :
    upsert_accounts hashW applyDW [] [] hdrW.block_num = .ok ([], 0) ∧
    ({ accounts := [], nullifiers := [nullRowW], notes := [noteW1],
       headers := [hdrW] } : DbState).headers = [] ++ [hdrW] ∧
    ({ accounts := [], nullifiers := [nullRowW], notes := [noteW1],
       headers := [hdrW] } : DbState).notes = [] ++ [noteW1] ∧
    ({ accounts := [], nullifiers := [nullRowW], notes := [noteW1],
       headers := [hdrW] } : DbState).nullifiers = [] ++ [nullW].map (fun n =>
      { nullifier := n, nullifierPfx := getNullifierPfx n,
        block_num := hdrW.block_num }) ∧
    (3 : Nat) = 1 + [noteW1].length + ([] : List AccountUpdateDetails).length +
      [nullW].length := by
  have h := apply_block_order_and_count hashW applyDW
    { accounts := [], nullifiers := [], notes := [], headers := [] }
    hdrW [noteW1] [nullW] []
    ({ accounts := [], nullifiers := [nullRowW], notes := [noteW1],
       headers := [hdrW] }, 3) rfl
  exact h

/-- C9: when the block-header table is empty, `get_state_sync` fails with
the distinguished `EmptyBlockHeadersTable` error kind. -/
theorem get_state_sync_empty_header_table (db : DbState) (block_num : Nat)
    (account_ids note_tags nullifierPfxes : List Nat)
    (h : db.headers = []) :
    get_state_sync db block_num account_ids note_tags nullifierPfxes =
      .error .emptyBlockHeadersTable := by
  have hlatest : select_block_header_by_block_num db none = none := by
    simp [select_block_header_by_block_num, h, latestHeader]
  have hfind : ∀ n, select_block_header_by_block_num db (some n) = none := by
    intro n
    simp [select_block_header_by_block_num, h]
  unfold get_state_sync
  cases hn : select_notes_since_block_by_tag_and_sender db note_tags account_ids
      block_num with
  | nil => simp [hn, hlatest]
  | cons n0 rest => simp [hn, hfind n0.block_num]

/-- C9 witness: a completely empty store makes `get_state_sync` fail with
`EmptyBlockHeadersTable`. -/
theorem get_state_sync_empty_header_table_witness :
    get_state_sync { accounts := [], nullifiers := [], notes := [], headers := [] }
      0 [] [] [] = .error .emptyBlockHeadersTable :=
  get_state_sync_empty_header_table
    { accounts := [], nullifiers := [], notes := [], headers := [] } 0 [] [] [] rfl

/-- C5: on success of `get_state_sync`: with a non-empty note result the
target header is the stored header of `notes[0].block_num` and the chain tip
comes from a separate latest-header lookup; with an empty note result the
target header is the latest header and the chain tip is its block number;
account updates and nullifiers are fetched over the half-open range
`(block_num, target_header.block_num]` with the caller's filters. -/
theorem get_state_sync_structure (db : DbState) (block_num : Nat)
    (account_ids note_tags nullifierPfxes : List Nat) (u : StateSyncUpdate)
    (h : get_state_sync db block_num account_ids note_tags nullifierPfxes = .ok u) :
    u.notes = select_notes_since_block_by_tag_and_sender db note_tags account_ids
      block_num ∧
    (∀ n0 rest, u.notes = n0 :: rest →
       select_block_header_by_block_num db (some n0.block_num) = some u.block_header ∧
       u.block_header.block_num = n0.block_num ∧
       ∃ tip, select_block_header_by_block_num db none = some tip ∧
         u.chain_tip = tip.block_num) ∧
    (u.notes = [] →
       select_block_header_by_block_num db none = some u.block_header ∧
       u.chain_tip = u.block_header.block_num) ∧
    u.account_updates = select_accounts_by_block_range db block_num
      u.block_header.block_num account_ids ∧
    u.nullifiers = select_nullifiers_by_block_range db block_num
      u.block_header.block_num nullifierPfxes := by
  unfold get_state_sync at h
  cases hn : select_notes_since_block_by_tag_and_sender db note_tags account_ids
      block_num with
  | nil =>
    rw [hn] at h
    dsimp only at h
    split at h
    · exact absurd h (by simp)
    · rename_i bh hbh
      cases h
      refine ⟨rfl, ?_, fun _ => ⟨hbh, rfl⟩, rfl, rfl⟩
      intro n0 rest hcon
      simp at hcon
  | cons n0 rest =>
    rw [hn] at h
    dsimp only at h
    split at h
    · exact absurd h (by simp)
    · rename_i bh hbh
      split at h
      · exact absurd h (by simp)
      · rename_i tip htip
        cases h
        refine ⟨rfl, ?_, ?_, rfl, rfl⟩
        · intro n0' rest' heq
          cases heq
          have hprop := List.find?_some hbh
          simp only [decide_eq_true_eq] at hprop
          exact ⟨hbh, hprop, tip, htip, rfl⟩
        · intro hcon
          simp at hcon

/-- A sample store with a single genesis-like header. -/
def dbHdrW : DbState :=
  { accounts := [], nullifiers := [], notes := [],
    headers := [{ block_num := 1, payload := 0 }] }

/-- C5 witness: on a store holding only the header of block 1 and no notes,
`get_state_sync` succeeds, returns that header as both target and tip, and
fetches the range queries over `(0, 1]`. -/
theorem get_state_sync_structure_witness :
    ({ notes := [], block_header := { block_num := 1, payload := 0 }, chain_tip := 1,
       account_updates := [], nullifiers := [] } : StateSyncUpdate).notes =
      select_notes_since_block_by_tag_and_sender dbHdrW [] [] 0 ∧
    select_block_header_by_block_num dbHdrW none =
      some ({ notes := [], block_header := { block_num := 1, payload := 0 },
              chain_tip := 1, account_updates := [],
              nullifiers := [] } : StateSyncUpdate).block_header ∧
    ({ notes := [], block_header := { block_num := 1, payload := 0 }, chain_tip := 1,
       account_updates := [], nullifiers := [] } : StateSyncUpdate).chain_tip =
      ({ notes := [], block_header := { block_num := 1, payload := 0 }, chain_tip := 1,
         account_updates := [], nullifiers := [] } : StateSyncUpdate).block_header.block_num := by
  obtain ⟨h1, -, h3, -, -⟩ := get_state_sync_structure dbHdrW 0 [] [] []
    { notes := [], block_header := { block_num := 1, payload := 0 }, chain_tip := 1,
      account_updates := [], nullifiers := [] } rfl
  exact ⟨h1, (h3 rfl).1, (h3 rfl).2⟩

-- GENESIS SERIALIZATION (`store/src/genesis.rs`)
-- =============================================================================

/-- One byte of a serialized stream. -/
abbrev Byte := Fin 256

/-- Model of `ByteWriter::write_u64`: `n` bytes of `v` in little-endian order
(`n = 8` for a `u64`). -/
def natLE : Nat → Nat → List Byte
  | 0, _ => []
  | n + 1, v => ⟨v % 256, Nat.mod_lt v (by decide)⟩ :: natLE n (v / 256)

/-- Model of `ByteReader::read_u64`-style read of `n` little-endian bytes; fails on a
stream shorter than `n` and leaves the remaining bytes unconsumed. -/
def readNat : Nat → List Byte → Option (Nat × List Byte)
  | 0, bs => some (0, bs)
  | _ + 1, [] => none
  | n + 1, b :: bs =>
    match readNat n bs with
    | none => none
    | some (v, r) => some (b.val + 256 * v, r)

theorem readNat_append (n : Nat) : ∀ bs v r, readNat n bs = some (v, r) →
    ∀ ext, readNat n (bs ++ ext) = some (v, r ++ ext) := by
  induction n with
  | zero =>
    intro bs v r h ext
    unfold readNat at h ⊢
    cases h
    rfl
  | succ n ih =>
    intro bs v r h ext
    cases bs with
    | nil => exact absurd h (by simp [readNat])
    | cons b bs2 =>
      unfold readNat at h
      split at h
      · exact absurd h (by simp)
      · rename_i v2 r2 hr
        cases h
        rw [List.cons_append]
        unfold readNat
        rw [ih bs2 v2 r hr ext]

theorem readNat_natLE (n : Nat) : ∀ v r,
    readNat n (natLE n v ++ r) = some (v % 256 ^ n, r) := by
  induction n with
  | zero =>
    intro v r
    simp [natLE, readNat, Nat.mod_one]
  | succ n ih =>
    intro v r
    have hs : 256 ^ (n + 1) = 256 * 256 ^ n := by
      rw [Nat.pow_succ, Nat.mul_comm]
    unfold natLE
    rw [List.cons_append]
    unfold readNat
    rw [ih (v / 256) r]
    rw [hs, Nat.mod_mul]

/-- Modelled from the spec: the account's canonical byte encoding is
provided by the external `miden_objects` crate and is not part of this
repository; the spec treats it as an opaque exact-round-trip codec, modelled
here as the two `u64` fields in little-endian order. -/
def Account.toBytes (a : Account) : List Byte := natLE 8 a.id ++ natLE 8 a.state

/-- Modelled from the spec: decoder for the opaque account codec above. -/
def readAccount (bs : List Byte) : Option (Account × List Byte) :=
  match readNat 8 bs with
  | none => none
  | some (i, r) =>
    match readNat 8 r with
    | none => none
    | some (s, r2) => some ({ id := i, state := s }, r2)

theorem readAccount_append (bs : List Byte) (a : Account) (r : List Byte)
    (h : readAccount bs = some (a, r)) (ext : List Byte) :
    readAccount (bs ++ ext) = some (a, r ++ ext) := by
  unfold readAccount at h
  split at h
  · exact absurd h (by simp)
  · rename_i i r1 h1
    split at h
    · exact absurd h (by simp)
    · rename_i s r2 h2
      cases h
      unfold readAccount
      rw [readNat_append 8 bs i r1 h1 ext]
      dsimp only
      rw [readNat_append 8 r1 s r h2 ext]

theorem readAccount_toBytes (a : Account) (hid : a.id < 2 ^ 64)
    (hst : a.state < 2 ^ 64) (r : List Byte) :
    readAccount (Account.toBytes a ++ r) = some (a, r) := by
  have h256 : (256 : Nat) ^ 8 = 2 ^ 64 := by norm_num
  unfold Account.toBytes readAccount
  rw [List.append_assoc, readNat_natLE, h256, Nat.mod_eq_of_lt hid]
  dsimp only
  rw [readNat_natLE, h256, Nat.mod_eq_of_lt hst]

/-- Model of `Account::read_batch_from`: read `n` consecutive accounts. -/
def Account.read_batch_from : Nat → List Byte → Option (List Account × List Byte)
  | 0, bs => some ([], bs)
  | n + 1, bs =>
    match readAccount bs with
    | none => none
    | some (a, r) =>
      match Account.read_batch_from n r with
      | none => none
      | some (acs, r2) => some (a :: acs, r2)

theorem read_batch_from_append (n : Nat) : ∀ bs acs r,
    Account.read_batch_from n bs = some (acs, r) →
    ∀ ext, Account.read_batch_from n (bs ++ ext) = some (acs, r ++ ext) := by
  induction n with
  | zero =>
    intro bs acs r h ext
    unfold Account.read_batch_from at h ⊢
    cases h
    rfl
  | succ n ih =>
    intro bs acs r h ext
    unfold Account.read_batch_from at h
    split at h
    · exact absurd h (by simp)
    · rename_i a r1 h1
      split at h
      · exact absurd h (by simp)
      · rename_i acs2 r2 h2
        cases h
        unfold Account.read_batch_from
        rw [readAccount_append bs a r1 h1 ext]
        dsimp only
        rw [ih r1 acs2 r h2 ext]

theorem read_batch_from_toBytes (l : List Account)
    (h : ∀ a ∈ l, a.id < 2 ^ 64 ∧ a.state < 2 ^ 64) (r : List Byte) :
    Account.read_batch_from l.length ((l.map Account.toBytes).flatten ++ r) =
      some (l, r) := by
  induction l with
  | nil => simp [Account.read_batch_from]
  | cons a l2 ih =>
    have ha := h a (List.mem_cons_self a l2)
    have hrest : ∀ x ∈ l2, x.id < 2 ^ 64 ∧ x.state < 2 ^ 64 :=
      fun x hx => h x (List.mem_cons_of_mem a hx)
    rw [List.length_cons, List.map_cons, List.flatten_cons, List.append_assoc]
    unfold Account.read_batch_from
    rw [readAccount_toBytes a ha.1 ha.2]
    dsimp only
    rw [ih hrest]

/-- Model of `GenesisState` (`store/src/genesis.rs`): the accounts list, a protocol
version and a timestamp. -/
structure GenesisState where
  accounts : List Account
  version : Nat
  timestamp : Nat
deriving DecidableEq, Repr

/-- Model of `Serializable::write_into` for `GenesisState`: the account count as a
`u64`, each account's canonical encoding in order, then version and
timestamp as `u64`. -/
def GenesisState.toBytes (g : GenesisState) : List Byte :=
  natLE 8 g.accounts.length ++ (g.accounts.map Account.toBytes).flatten ++
    natLE 8 g.version ++ natLE 8 g.timestamp

/-- Model of `Deserializable::read_from` for `GenesisState`: read the count, that
many accounts, the version and the timestamp, leaving any later bytes of the
stream unconsumed. -/
def GenesisState.read_from (bs : List Byte) : Option (GenesisState × List Byte) :=
  match readNat 8 bs with
  | none => none
  | some (num_accounts, r1) =>
    match Account.read_batch_from num_accounts r1 with
    | none => none
    | some (accounts, r2) =>
      match readNat 8 r2 with
      | none => none
      | some (version, r3) =>
        match readNat 8 r3 with
        | none => none
        | some (timestamp, r4) =>
          some ({ accounts := accounts, version := version, timestamp := timestamp }, r4)

theorem read_from_append (bs : List Byte) (g : GenesisState) (r : List Byte)
    (h : GenesisState.read_from bs = some (g, r)) (ext : List Byte) :
    GenesisState.read_from (bs ++ ext) = some (g, r ++ ext) := by
  unfold GenesisState.read_from at h
  split at h
  · exact absurd h (by simp)
  · rename_i n1 r1 h1
    split at h
    · exact absurd h (by simp)
    · rename_i acs r2 h2
      split at h
      · exact absurd h (by simp)
      · rename_i v r3 h3
        split at h
        · exact absurd h (by simp)
        · rename_i t r4 h4
          cases h
          unfold GenesisState.read_from
          rw [readNat_append 8 bs n1 r1 h1 ext]
          dsimp only
          rw [read_batch_from_append n1 r1 acs r2 h2 ext]
          dsimp only
          rw [readNat_append 8 r2 v r3 h3 ext]
          dsimp only
          rw [readNat_append 8 r3 t r h4 ext]

theorem read_from_toBytes (g : GenesisState)
    (hlen : g.accounts.length < 2 ^ 64) (hv : g.version < 2 ^ 64)
    (ht : g.timestamp < 2 ^ 64)
    (hacc : ∀ a ∈ g.accounts, a.id < 2 ^ 64 ∧ a.state < 2 ^ 64) (r : List Byte) :
    GenesisState.read_from (g.toBytes ++ r) = some (g, r) := by
  have h256 : (256 : Nat) ^ 8 = 2 ^ 64 := by norm_num
  unfold GenesisState.toBytes GenesisState.read_from
  rw [List.append_assoc, List.append_assoc, List.append_assoc,
    readNat_natLE, h256, Nat.mod_eq_of_lt hlen]
  dsimp only
  rw [read_batch_from_toBytes g.accounts hacc]
  dsimp only
  rw [readNat_natLE, h256, Nat.mod_eq_of_lt hv]
  dsimp only
  rw [readNat_natLE, h256, Nat.mod_eq_of_lt ht]

/-- C4 counterexample: `read_from` does not reject trailing input.  For the
empty genesis state, deserializing its serialization followed by one extra
byte succeeds, returning the state and leaving the extra byte unconsumed,
instead of rejecting the input. -/
theorem genesis_read_from_trailing_byte_accepted :
    GenesisState.read_from
        (GenesisState.toBytes { accounts := [], version := 0, timestamp := 0 } ++
          [(0 : Byte)]) =
      some ({ accounts := [], version := 0, timestamp := 0 }, [(0 : Byte)]) ∧
    GenesisState.read_from
        (GenesisState.toBytes { accounts := [], version := 0, timestamp := 0 } ++
          [(0 : Byte)]) ≠ none := by
  refine ⟨by decide, by decide⟩

/-- C4 (amended): for every `GenesisState` whose fields fit in `u64`,
deserializing its serialization yields the state back with nothing left
over, and every strict prefix of the serialization (truncated input) fails
to deserialize; trailing bytes, however, are left unconsumed by `read_from`
rather than rejected (rejecting them is up to the external
`read_from_bytes` wrapper, which is not part of this repository). -/
theorem genesis_state_roundtrip (g : GenesisState)
    (hlen : g.accounts.length < 2 ^ 64) (hv : g.version < 2 ^ 64)
    (ht : g.timestamp < 2 ^ 64)
    (hacc : ∀ a ∈ g.accounts, a.id < 2 ^ 64 ∧ a.state < 2 ^ 64) :
    GenesisState.read_from g.toBytes = some (g, []) ∧
    (∀ k, k < g.toBytes.length →
       GenesisState.read_from (g.toBytes.take k) = none) := by
  have hfull : GenesisState.read_from g.toBytes = some (g, []) := by
    have := read_from_toBytes g hlen hv ht hacc []
    rwa [List.append_nil] at this
  refine ⟨hfull, ?_⟩
  intro k hk
  cases hcase : GenesisState.read_from (g.toBytes.take k) with
  | none => rfl
  | some p =>
    obtain ⟨g2, rest⟩ := p
    exfalso
    have hext := read_from_append (g.toBytes.take k) g2 rest hcase (g.toBytes.drop k)
    rw [List.take_append_drop] at hext
    rw [hfull] at hext
    have h1 : ([] : List Byte) = rest ++ g.toBytes.drop k := by
      have := Option.some.inj hext
      exact congrArg Prod.snd this
    have h2 : g.toBytes.drop k = [] := by
      rcases List.append_eq_nil.mp h1.symm with ⟨-, h⟩
      exact h
    have h3 : g.toBytes.length ≤ k := List.drop_eq_nil_iff.mp h2
    omega

/-- A sample genesis state with one account. -/
def gW : GenesisState :=
  { accounts := [{ id := 1, state := 2 }], version := 3, timestamp := 4 }

/-- C4 witness: the sample genesis state round-trips, and its serialization
truncated to 5 bytes fails to deserialize. -/
theorem genesis_state_roundtrip_witness :
    GenesisState.read_from (GenesisState.toBytes gW) = some (gW, []) ∧
    GenesisState.read_from ((GenesisState.toBytes gW).take 5) = none := by
  obtain ⟨h1, h2⟩ :=
    genesis_state_roundtrip gW (by decide) (by decide) (by decide) (by decide)
  exact ⟨h1, h2 5 (by decide)⟩

end MidenStore
